import Mathlib

/-!
Shallow embedding of the client-side synchronization engine of the bingo
client (`src/App.jsx`): the card store, the transmission sequencer, the
event reconciler and the selection heuristic, together with proofs of the
specification claims about them.

Presentation-only state (`showStartModal`, `showLoadModal`, `manualInput`,
`manualCardId`, `userName`, socket construction) is outside the modelled
core; the outbound channel is modelled by a boolean `channelOpen`
(`socketRef.current.readyState === WebSocket.OPEN`).
-/

namespace Bingo

/-- A bingo card as stored in the `bingoCards` state array. -/
structure Card where
  id : String
  words : List String
  language : String
  markedWords : List String
  transmitted : Bool
deriving DecidableEq, Inhabited

/-- Minimal JSON value model for the serialized frames sent over the
channel (`JSON.stringify` payloads). -/
inductive Json where
  | str : String → Json
  | arr : List Json → Json
  | obj : List (String × Json) → Json

/-- Top-level field lookup on a JSON object (`none` on non-objects and
missing keys). -/
def Json.lookupField : Json → String → Option Json
  | .obj fields, key => fields.lookup key
  | .str _, _ => none
  | .arr _, _ => none

/-- `LANGUAGE_CONFIGS`: rows × cols layout per language, in declaration
order (spanish, english, portuguese, dutch). -/
structure LanguageConfig where
  rows : Nat
  cols : Nat
  total : Nat
deriving DecidableEq

def LANGUAGE_CONFIGS : List (String × LanguageConfig) :=
  [("spanish", ⟨4, 6, 24⟩),
   ("english", ⟨2, 7, 14⟩),
   ("portuguese", ⟨5, 4, 20⟩),
   ("dutch", ⟨2, 5, 10⟩)]

/-- `detectLanguage(wordCount)`: first declared language whose `total`
equals the word count, defaulting to `"spanish"`. -/
def detectLanguage (wordCount : Nat) : String :=
  match LANGUAGE_CONFIGS.find? (fun p => p.2.total == wordCount) with
  | some p => p.1
  | none => "spanish"

/-- The JSON frame built by `sendBingoCard`:
`{type: 'bingo_card', card: {id, words, language}}`. -/
def bingoCardMessage (card : Card) : Json :=
  .obj [("type", .str "bingo_card"),
        ("card", .obj [("id", .str card.id),
                       ("words", .arr (card.words.map .str)),
                       ("language", .str card.language)])]

/-- `sendBingoCard(card)`: emits the frame only when the socket is open
(`readyState === WebSocket.OPEN`); otherwise nothing is sent. -/
def sendBingoCard (channelOpen : Bool) (card : Card) : Option Json :=
  if channelOpen then some (bingoCardMessage card) else none

/-- Inbound server events, dispatched on the `type` discriminator.
`word_selected` carries the optional `card_ids` and `language` payload
fields exactly as the handler reads them (`data.card_ids`,
`data.language`); `round_end` carries the optional `winners` list. -/
inductive ServerEvent where
  | player_count : Nat → ServerEvent
  | game_started : ServerEvent
  | round_start : String → ServerEvent
  | word_selected : String → Option (List String) → Option String → ServerEvent
  | round_end : Option (List String) → String → ServerEvent
  | game_end : Option (List String) → ServerEvent
  | unknown : ServerEvent

/-- The reconciler-relevant React state of `App`. -/
structure AppState where
  bingoCards : List Card
  selectedCardIndex : Nat
  currentWord : String
  currentLanguage : String
  playerCount : Nat
  gameStarted : Bool
  showWinnersModal : Bool
  winners : Option (List String)
  showRoundWinnersModal : Bool
  roundWinners : Option (List String)
  roundLanguage : String
deriving DecidableEq

/-- The `useState` initial values. -/
def initialState : AppState where
  bingoCards := []
  selectedCardIndex := 0
  currentWord := ""
  currentLanguage := ""
  playerCount := 0
  gameStarted := false
  showWinnersModal := false
  winners := none
  showRoundWinnersModal := false
  roundWinners := none
  roundLanguage := ""

/-- Per-card body of the `word_selected` marking map: if `card_ids` is
present and contains the card's id and the card's words contain the word
and it is not already marked, append it to `markedWords`; otherwise
return the card unchanged. -/
def applyMark (word : String) (card_ids : Option (List String)) (card : Card) : Card :=
  match card_ids with
  | some ids =>
    if ids.contains card.id && card.words.contains word then
      if card.markedWords.contains word then card
      else { card with markedWords := card.markedWords ++ [word] }
    else card
  | none => card

/-- `card.markedWords.length` (`markedCount` in the selection loop). -/
def markedCount (card : Card) : Nat := card.markedWords.length

/-- `card.language === data.language`, where `data.language` may be
absent (`none` matches no card, since `card.language` is a string). -/
def matchesLang (lang : Option String) (card : Card) : Bool :=
  lang == some card.language

/-- Accumulator of the selection `forEach` loop: `maxMarked`,
`bestIndex`, `maxMarkedForLanguage`, `bestIndexForLanguage`. -/
structure SelAcc where
  maxMarked : Nat
  bestIndex : Nat
  maxMarkedForLanguage : Nat
  bestIndexForLanguage : Nat
deriving DecidableEq

/-- Body of the selection `forEach`: advance the overall candidate on a
strictly greater `markedCount`, and the language-restricted candidate on
a language match with a strictly greater `markedCount`. -/
def selStep (lang : Option String) (acc : SelAcc) (index : Nat) (card : Card) : SelAcc :=
  let mc := markedCount card
  let acc1 :=
    if acc.maxMarked < mc then
      { acc with maxMarked := mc, bestIndex := index }
    else acc
  if matchesLang lang card && decide (acc1.maxMarkedForLanguage < mc) then
    { acc1 with maxMarkedForLanguage := mc, bestIndexForLanguage := index }
  else acc1

/-- The selection `forEach` over the post-mark card list, carrying the
running index. -/
def selLoop (lang : Option String) : List Card → Nat → SelAcc → SelAcc
  | [], _, acc => acc
  | card :: rest, index, acc => selLoop lang rest (index + 1) (selStep lang acc index card)

/-- The deferred auto-select after marking:
`maxMarkedForLanguage > 0 ? bestIndexForLanguage : bestIndex` over the
updated card list (all accumulators start at 0). -/
def computeSelectedIndex (cards : List Card) (lang : Option String) : Nat :=
  let acc := selLoop lang cards 0 ⟨0, 0, 0, 0⟩
  if 0 < acc.maxMarkedForLanguage then acc.bestIndexForLanguage else acc.bestIndex

/-- `handleWebSocketMessage(data)`: the event reconciler. -/
def handleWebSocketMessage (s : AppState) (data : ServerEvent) : AppState :=
  match data with
  | .player_count count => { s with playerCount := count }
  | .game_started => { s with gameStarted := true }
  | .round_start language => { s with currentLanguage := language }
  | .word_selected word card_ids language =>
    let updated := s.bingoCards.map (applyMark word card_ids)
    { s with
        currentWord := word
        bingoCards := updated
        selectedCardIndex := computeSelectedIndex updated language }
  | .round_end ws language =>
    let s1 := { s with currentWord := "" }
    let s2 :=
      match ws with
      | some winners =>
        if 0 < winners.length then
          { s1 with
              roundWinners := some winners
              roundLanguage := language
              showRoundWinnersModal := true }
        else s1
      | none => s1
    { s2 with currentLanguage := "" }
  | .game_end ws =>
    { s with winners := ws, showWinnersModal := true }
  | .unknown => s

/-- `findIndex(card => !card.transmitted)`. -/
def findUntransmittedIdx : List Card → Option Nat
  | [] => none
  | card :: rest =>
    if card.transmitted then (findUntransmittedIdx rest).map (· + 1)
    else some 0

/-- `prevCards.map((c, idx) => idx === i ? {...c, transmitted: true} : c)`:
set the `transmitted` flag of the card at index `i`. -/
def markAt : List Card → Nat → List Card
  | [], _ => []
  | card :: rest, 0 => { card with transmitted := true } :: rest
  | card :: rest, i + 1 => card :: markAt rest i

/-- Result of a run of the transmission loop: the updated card list, the
frames sent over the channel in order, and the final `isTransmitting`
flag. -/
structure TransmitResult where
  cards : List Card
  sent : List Json
  isTransmitting : Bool

/-- `transmitNextCard()`: find the first untransmitted card; if none,
stop (`setIsTransmitting(false)`). Otherwise send it through
`sendBingoCard` (a no-op when the channel is closed), mark it
`transmitted: true` unconditionally, and re-invoke while some card is
still untransmitted. The `fuel` argument bounds the number of re-arms;
the source loop needs none because every cycle marks one card. -/
def transmitNextCard (channelOpen : Bool) : Nat → List Card → List Json → TransmitResult
  | fuel, cards, msgs =>
    match findUntransmittedIdx cards with
    | none => ⟨cards, msgs, false⟩
    | some i =>
      let card := cards.getD i default
      let msgs2 := msgs ++ (sendBingoCard channelOpen card).toList
      let updated := markAt cards i
      if updated.any (fun c => !c.transmitted) then
        match fuel with
        | 0 => ⟨updated, msgs2, true⟩
        | fuel' + 1 => transmitNextCard channelOpen fuel' updated msgs2
      else ⟨updated, msgs2, false⟩

/-- A full drain of the sequencer starting from the `useEffect` trigger:
`cards.length` cycles always suffice. -/
def transmitAll (channelOpen : Bool) (cards : List Card) : TransmitResult :=
  transmitNextCard channelOpen cards.length cards []

/-- The transmission-trigger `useEffect`: do nothing on an empty store;
start the loop only when an untransmitted card exists and
`isTransmitting` is false. -/
def useEffectTransmit (channelOpen : Bool) (cards : List Card)
    (running : Bool) : TransmitResult :=
  if cards.length = 0 then ⟨cards, [], running⟩
  else if (cards.any fun c => !c.transmitted) && !running then
    transmitAll channelOpen cards
  else ⟨cards, [], running⟩

/-- Character-level splitter modelling JavaScript `String.split` against
a single-character class: segments between separator characters, empty
segments kept (JS keeps them; callers filter them out). -/
def splitChars (p : Char → Bool) : List Char → List (List Char)
  | [] => [[]]
  | c :: rest =>
    if p c then [] :: splitChars p rest
    else
      match splitChars p rest with
      | [] => [[c]]
      | seg :: more => (c :: seg) :: more

/-- JavaScript `String.prototype.trim`: strip leading and trailing
whitespace. -/
def jsTrim (s : String) : String :=
  ⟨(((s.data.dropWhile Char.isWhitespace).reverse.dropWhile
      Char.isWhitespace).reverse)⟩

/-- JavaScript `content.split('\n')`. -/
def jsLines (s : String) : List String :=
  (splitChars (fun c => c == '\n') s.data).map fun cs => (⟨cs⟩ : String)

/-- JavaScript `line.trim().split(/\s+/)` on a line: the maximal
non-whitespace runs of the trimmed line (splitting at every whitespace
character and dropping the empty segments the runs leave behind). -/
def jsTokens (line : String) : List String :=
  ((splitChars Char.isWhitespace (jsTrim line).data).map
    fun cs => (⟨cs⟩ : String)).filter (· ≠ "")

/-- `parseTxtFile(content)`: one card per non-blank line; the first
whitespace-separated token is the id, the rest are the words; lines with
fewer than two tokens are skipped. -/
def parseTxtFile (content : String) : List Card :=
  let lines := (jsLines content).filter (fun line => jsTrim line ≠ "")
  lines.filterMap (fun line =>
    let parts := jsTokens line
    if parts.length < 2 then none
    else
      let id := parts.headD ""
      let words := parts.drop 1
      if words.length = 0 then none
      else some { id := id, words := words, language := detectLanguage words.length,
                  transmitted := false, markedWords := [] })

/-- `handleManualSubmit()`: reject a blank id or word list, split the
input on newlines, trim and drop blank lines, and append one new card
with `transmitted: false` and empty `markedWords`. -/
def handleManualSubmit (manualCardId manualInput : String)
    (bingoCards : List Card) : List Card :=
  if jsTrim manualCardId = "" ∨ jsTrim manualInput = "" then bingoCards
  else
    let words := ((jsLines manualInput).map jsTrim).filter (· ≠ "")
    if words.length = 0 then bingoCards
    else bingoCards ++
      [{ id := jsTrim manualCardId, words := words,
         language := detectLanguage words.length,
         transmitted := false, markedWords := [] }]

/-! ### Derived definitions used to state and settle the claims -/

/-- The untransmitted cards, in store order. -/
def pendingCards (cards : List Card) : List Card :=
  cards.filter (fun c => !c.transmitted)

/-- Every card with its `transmitted` flag set. -/
def markAllTransmitted (cards : List Card) : List Card :=
  cards.map (fun c => { c with transmitted := true })

/-- Maximum `markedCount` over a card list (0 when empty). -/
def maxMarkedAll : List Card → Nat
  | [] => 0
  | c :: cs => max (markedCount c) (maxMarkedAll cs)

/-- Maximum `markedCount` over the cards matching the given language
(0 when none match). -/
def maxMarkedLang (lang : Option String) : List Card → Nat
  | [] => 0
  | c :: cs =>
    if matchesLang lang c then max (markedCount c) (maxMarkedLang lang cs)
    else maxMarkedLang lang cs

/-- Lowest index of a card with `markedCount = n`. -/
def firstIdxAll (cards : List Card) (n : Nat) : Nat :=
  cards.findIdx (fun c => markedCount c == n)

/-- Lowest index of a language-matching card with `markedCount = n`. -/
def firstIdxLang (lang : Option String) (cards : List Card) (n : Nat) : Nat :=
  cards.findIdx (fun c => matchesLang lang c && markedCount c == n)

/-- Per-card invariant: every marked word is one of the card's words
(`markedWords ⊆ words`). -/
def cardInv (c : Card) : Prop :=
  ∀ w ∈ c.markedWords, w ∈ c.words

/-- The invariant over the whole card store. -/
def storeInv (cards : List Card) : Prop :=
  ∀ c ∈ cards, cardInv c

/-- `data.winners && data.winners.length > 0`: whether a `round_end`
event carries a non-empty winners list. -/
def nonEmptyWinners : Option (List String) → Bool
  | some ws => decide (0 < ws.length)
  | none => false

/-- The card-submission frame shape asserted by the specification's
component-design section: `{type, id, words, language}` with the card
fields at top level. -/
def bingoCardMessageClaimed (card : Card) : Json :=
  .obj [("type", .str "bingo_card"),
        ("id", .str card.id),
        ("words", .arr (card.words.map .str)),
        ("language", .str card.language)]

/-! Concrete fixtures used by counterexamples and witnesses. -/

def demoEnglishCard : Card :=
  { id := "a", words := ["W"], language := "english", markedWords := [], transmitted := true }

def demoDutchCard : Card :=
  { id := "b", words := ["W"], language := "dutch", markedWords := [], transmitted := true }

def selTestState : AppState :=
  { initialState with bingoCards := [demoEnglishCard, demoDutchCard] }

/-- `round_start{language:"dutch"}` followed by a `word_selected` event
whose payload has no `language` field, marking both cards once. -/
def selTestAfter : AppState :=
  handleWebSocketMessage
    (handleWebSocketMessage selTestState (.round_start "dutch"))
    (.word_selected "W" (some ["a", "b"]) none)

def tieEnglishCard : Card :=
  { id := "e", words := ["SOL"], language := "english", markedWords := ["SOL"],
    transmitted := true }

def tieDutchCard : Card :=
  { id := "d", words := ["HOND"], language := "dutch", markedWords := ["HOND"],
    transmitted := true }

def hondCard : Card :=
  { id := "c1", words := ["HOND"], language := "dutch", markedWords := [], transmitted := true }

def roundTestState : AppState :=
  { initialState with bingoCards := [hondCard] }

/-- The round-lifecycle scenario of the specification:
`round_start{language:"dutch"}`, `word_selected{word:"HOND",
card_ids:["c1"]}`, `round_end{winners:["Ana"], language:"dutch"}`. -/
def roundTestFinal : AppState :=
  handleWebSocketMessage
    (handleWebSocketMessage
      (handleWebSocketMessage roundTestState (.round_start "dutch"))
      (.word_selected "HOND" (some ["c1"]) none))
    (.round_end (some ["Ana"]) "dutch")

def wsTestCard : Card :=
  { id := "c1", words := ["SOL", "LUNA"], language := "spanish", markedWords := [],
    transmitted := false }

def wsTestState : AppState :=
  { initialState with bingoCards := [wsTestCard] }

def fifoCardA : Card :=
  { id := "A", words := ["SOL"], language := "spanish", markedWords := [], transmitted := false }

def fifoCardB : Card :=
  { id := "B", words := ["LUNA"], language := "spanish", markedWords := [], transmitted := false }

def fifoCardC : Card :=
  { id := "C", words := ["MAR"], language := "spanish", markedWords := [], transmitted := false }

/-! ### Lemmas about the transmission sequencer -/

theorem Card.setTransmitted_eq_self {c : Card} (h : c.transmitted = true) :
    { c with transmitted := true } = c := by
  cases c
  simp_all

theorem pendingCards_nil_iff (cards : List Card) :
    pendingCards cards = [] ↔ ∀ c ∈ cards, c.transmitted = true := by
  simp [pendingCards, List.filter_eq_nil_iff]

theorem markAllTransmitted_eq_self {cards : List Card}
    (h : ∀ c ∈ cards, c.transmitted = true) : markAllTransmitted cards = cards := by
  induction cards with
  | nil => rfl
  | cons c cs ih =>
    have hc := h c (by simp)
    have hcs : ∀ x ∈ cs, x.transmitted = true := fun x hx => h x (by simp [hx])
    simp only [markAllTransmitted, List.map_cons] at ih ⊢
    rw [Card.setTransmitted_eq_self hc, ih hcs]

theorem findUntransmittedIdx_eq_none {cards : List Card}
    (h : pendingCards cards = []) : findUntransmittedIdx cards = none := by
  induction cards with
  | nil => rfl
  | cons c cs ih =>
    rw [pendingCards_nil_iff] at h
    have hc := h c (by simp)
    have hcs : pendingCards cs = [] :=
      (pendingCards_nil_iff cs).mpr fun x hx => h x (by simp [hx])
    simp [findUntransmittedIdx, hc, ih hcs]

theorem any_untransmitted_eq_false {cards : List Card}
    (h : pendingCards cards = []) : (cards.any fun c => !c.transmitted) = false := by
  rw [pendingCards_nil_iff] at h
  simp only [List.any_eq_false]
  intro c hc
  simp [h c hc]

theorem any_untransmitted_eq_true {cards : List Card}
    (h : pendingCards cards ≠ []) : (cards.any fun c => !c.transmitted) = true := by
  rcases hb : cards.any fun c => !c.transmitted with _ | _
  · exfalso
    apply h
    rw [pendingCards_nil_iff]
    intro c hc
    have := List.any_eq_false.mp hb c hc
    simp_all
  · rfl

theorem transmitStep_decomp {cards : List Card} (h : pendingCards cards ≠ []) :
    ∃ i, findUntransmittedIdx cards = some i ∧
      (cards.getD i default).transmitted = false ∧
      pendingCards cards = cards.getD i default :: pendingCards (markAt cards i) ∧
      markAllTransmitted (markAt cards i) = markAllTransmitted cards := by
  induction cards with
  | nil => simp [pendingCards] at h
  | cons c cs ih =>
    by_cases hc : c.transmitted = true
    · have hpend : pendingCards (c :: cs) = pendingCards cs := by
        simp [pendingCards, List.filter_cons, hc]
      rw [hpend] at h
      obtain ⟨i, h1, h2, h3, h4⟩ := ih h
      refine ⟨i + 1, ?_, ?_, ?_, ?_⟩
      · simp [findUntransmittedIdx, hc, h1]
      · simpa using h2
      · rw [hpend, h3]
        simp only [markAt, List.getD_cons_succ]
        congr 1
        simp [pendingCards, List.filter_cons, hc]
      · simp only [markAt, markAllTransmitted, List.map_cons] at h4 ⊢
        rw [h4]
    · replace hc : c.transmitted = false := by simp_all
      refine ⟨0, ?_, ?_, ?_, ?_⟩
      · simp [findUntransmittedIdx, hc]
      · simpa using hc
      · simp [pendingCards, List.filter_cons, hc, markAt]
      · simp [markAt, markAllTransmitted]

theorem sendBingoCard_toList (channelOpen : Bool) (card : Card) :
    (sendBingoCard channelOpen card).toList =
      if channelOpen then [bingoCardMessage card] else [] := by
  cases channelOpen <;> simp [sendBingoCard]

theorem transmitNextCard_drain (channelOpen : Bool) :
    ∀ fuel cards msgs, (pendingCards cards).length ≤ fuel + 1 →
      transmitNextCard channelOpen fuel cards msgs =
        ⟨markAllTransmitted cards,
         msgs ++ (if channelOpen then (pendingCards cards).map bingoCardMessage else []),
         false⟩ := by
  intro fuel
  induction fuel with
  | zero =>
    intro cards msgs hlen
    by_cases hp : pendingCards cards = []
    · have hfind := findUntransmittedIdx_eq_none hp
      simp only [transmitNextCard, hfind]
      rw [markAllTransmitted_eq_self ((pendingCards_nil_iff cards).mp hp), hp]
      simp
    · obtain ⟨i, h1, h2, h3, h4⟩ := transmitStep_decomp hp
      simp only [transmitNextCard, h1]
      by_cases hu : pendingCards (markAt cards i) = []
      · rw [any_untransmitted_eq_false hu]
        simp only [Bool.false_eq_true, if_false]
        have hcards : markAt cards i = markAllTransmitted cards := by
          rw [← h4]
          exact (markAllTransmitted_eq_self ((pendingCards_nil_iff _).mp hu)).symm
        rw [hcards, sendBingoCard_toList, h3, hu]
        cases channelOpen <;> simp
      · exfalso
        rw [h3] at hlen
        simp only [List.length_cons] at hlen
        have := List.length_pos.mpr hu
        omega
  | succ n ih =>
    intro cards msgs hlen
    unfold transmitNextCard
    by_cases hp : pendingCards cards = []
    · rw [findUntransmittedIdx_eq_none hp]
      rw [markAllTransmitted_eq_self ((pendingCards_nil_iff cards).mp hp), hp]
      simp
    · obtain ⟨i, h1, h2, h3, h4⟩ := transmitStep_decomp hp
      rw [h1]
      dsimp only
      by_cases hu : pendingCards (markAt cards i) = []
      · rw [any_untransmitted_eq_false hu]
        simp only [Bool.false_eq_true, if_false]
        have hcards : markAt cards i = markAllTransmitted cards := by
          rw [← h4]
          exact (markAllTransmitted_eq_self ((pendingCards_nil_iff _).mp hu)).symm
        rw [hcards, sendBingoCard_toList, h3, hu]
        cases channelOpen <;> simp
      · rw [any_untransmitted_eq_true hu]
        simp only [if_true]
        have hlen' : (pendingCards (markAt cards i)).length ≤ n + 1 := by
          rw [h3] at hlen
          simp only [List.length_cons] at hlen
          omega
        rw [ih (markAt cards i) _ hlen', h4, h3, sendBingoCard_toList]
        cases channelOpen <;> simp

/-- A full drain of the sequencer: every card ends `transmitted=true`;
with the channel open the frames sent are exactly the untransmitted
cards' messages in store order, and with it closed nothing is sent. -/
theorem transmitAll_eq (channelOpen : Bool) (cards : List Card) :
    transmitAll channelOpen cards =
      ⟨markAllTransmitted cards,
       if channelOpen then (pendingCards cards).map bingoCardMessage else [],
       false⟩ := by
  have hlen : (pendingCards cards).length ≤ cards.length + 1 := by
    have := List.length_filter_le (fun c => !c.transmitted) cards
    simp only [pendingCards]
    omega
  simpa using transmitNextCard_drain channelOpen cards.length cards [] hlen

/-! ### Characterization of the selection heuristic -/

theorem firstIdxAll_cons (c : Card) (rest : List Card) (n : Nat) :
    firstIdxAll (c :: rest) n =
      bif markedCount c == n then 0 else firstIdxAll rest n + 1 :=
  List.findIdx_cons _ c rest

theorem firstIdxLang_cons (lang : Option String) (c : Card) (rest : List Card) (n : Nat) :
    firstIdxLang lang (c :: rest) n =
      bif matchesLang lang c && (markedCount c == n) then 0
      else firstIdxLang lang rest n + 1 :=
  List.findIdx_cons _ c rest

/-- One step of the selection loop: the overall maximum becomes the
running max of the candidate and the card. -/
theorem selStep_maxMarked (lang : Option String) (acc : SelAcc) (i : Nat) (c : Card) :
    (selStep lang acc i c).maxMarked = max acc.maxMarked (markedCount c) := by
  by_cases h1 : acc.maxMarked < markedCount c <;>
    by_cases hm : matchesLang lang c <;>
      by_cases h2 : acc.maxMarkedForLanguage < markedCount c <;>
        simp [selStep, h1, hm, h2] <;> omega

/-- One step of the selection loop: the overall best index advances only
on a strictly greater marked count. -/
theorem selStep_bestIndex (lang : Option String) (acc : SelAcc) (i : Nat) (c : Card) :
    (selStep lang acc i c).bestIndex =
      if acc.maxMarked < markedCount c then i else acc.bestIndex := by
  by_cases h1 : acc.maxMarked < markedCount c <;>
    by_cases hm : matchesLang lang c <;>
      by_cases h2 : acc.maxMarkedForLanguage < markedCount c <;>
        simp [selStep, h1, hm, h2]

/-- One step of the selection loop: the language-restricted maximum
advances only on a language match. -/
theorem selStep_maxMarkedForLanguage (lang : Option String) (acc : SelAcc) (i : Nat) (c : Card) :
    (selStep lang acc i c).maxMarkedForLanguage =
      if matchesLang lang c then max acc.maxMarkedForLanguage (markedCount c)
      else acc.maxMarkedForLanguage := by
  by_cases h1 : acc.maxMarked < markedCount c <;>
    by_cases hm : matchesLang lang c <;>
      by_cases h2 : acc.maxMarkedForLanguage < markedCount c <;>
        simp [selStep, h1, hm, h2] <;> omega

/-- One step of the selection loop: the language-restricted best index
advances only on a language match with a strictly greater marked
count. -/
theorem selStep_bestIndexForLanguage (lang : Option String) (acc : SelAcc) (i : Nat) (c : Card) :
    (selStep lang acc i c).bestIndexForLanguage =
      if matchesLang lang c ∧ acc.maxMarkedForLanguage < markedCount c then i
      else acc.bestIndexForLanguage := by
  by_cases h1 : acc.maxMarked < markedCount c <;>
    by_cases hm : matchesLang lang c <;>
      by_cases h2 : acc.maxMarkedForLanguage < markedCount c <;>
        simp [selStep, h1, hm, h2]

theorem selLoop_spec (lang : Option String) :
    ∀ (cs : List Card) (i : Nat) (acc : SelAcc),
      selLoop lang cs i acc =
        ⟨max acc.maxMarked (maxMarkedAll cs),
         if acc.maxMarked < maxMarkedAll cs then
           i + firstIdxAll cs (maxMarkedAll cs)
         else acc.bestIndex,
         max acc.maxMarkedForLanguage (maxMarkedLang lang cs),
         if acc.maxMarkedForLanguage < maxMarkedLang lang cs then
           i + firstIdxLang lang cs (maxMarkedLang lang cs)
         else acc.bestIndexForLanguage⟩ := by
  intro cs
  induction cs with
  | nil =>
    intro i acc
    simp only [selLoop, maxMarkedAll, maxMarkedLang, Nat.max_zero]
    rw [if_neg (Nat.not_lt_zero _), if_neg (Nat.not_lt_zero _)]
  | cons c rest ih =>
    intro i acc
    show selLoop lang rest (i + 1) (selStep lang acc i c) = _
    rw [ih, selStep_maxMarked, selStep_bestIndex, selStep_maxMarkedForLanguage,
      selStep_bestIndexForLanguage]
    simp only [maxMarkedAll, maxMarkedLang, SelAcc.mk.injEq]
    refine ⟨by omega, ?_, ?_, ?_⟩
    · -- overall best index
      by_cases h2 : max acc.maxMarked (markedCount c) < maxMarkedAll rest
      · rw [if_pos h2, if_pos (by omega : acc.maxMarked < max (markedCount c) (maxMarkedAll rest))]
        have hmax : max (markedCount c) (maxMarkedAll rest) = maxMarkedAll rest := by omega
        have hne : (markedCount c == maxMarkedAll rest) = false := by
          simp only [beq_eq_false_iff_ne, ne_eq]
          omega
        rw [hmax, firstIdxAll_cons, hne, cond_false]
        omega
      · rw [if_neg h2]
        by_cases h1 : acc.maxMarked < markedCount c
        · rw [if_pos h1,
            if_pos (by omega : acc.maxMarked < max (markedCount c) (maxMarkedAll rest))]
          have hmax : max (markedCount c) (maxMarkedAll rest) = markedCount c := by omega
          rw [hmax, firstIdxAll_cons, beq_self_eq_true, cond_true]
          omega
        · rw [if_neg h1,
            if_neg (by omega : ¬acc.maxMarked < max (markedCount c) (maxMarkedAll rest))]
    · -- language max
      by_cases hm : matchesLang lang c
      · simp only [hm, if_true]
        omega
      · simp only [hm, Bool.false_eq_true, if_false]
    · -- language best index
      by_cases hm : matchesLang lang c
      · simp only [hm, eq_self_iff_true, true_and, if_true]
        by_cases h2 : max acc.maxMarkedForLanguage (markedCount c) < maxMarkedLang lang rest
        · rw [if_pos h2,
            if_pos (by omega :
              acc.maxMarkedForLanguage < max (markedCount c) (maxMarkedLang lang rest))]
          have hmax : max (markedCount c) (maxMarkedLang lang rest) = maxMarkedLang lang rest := by
            omega
          have hne : (markedCount c == maxMarkedLang lang rest) = false := by
            simp only [beq_eq_false_iff_ne, ne_eq]
            omega
          rw [hmax, firstIdxLang_cons, hm, hne, Bool.true_and, cond_false]
          omega
        · rw [if_neg h2]
          by_cases h1 : acc.maxMarkedForLanguage < markedCount c
          · rw [if_pos h1,
              if_pos (by omega :
                acc.maxMarkedForLanguage < max (markedCount c) (maxMarkedLang lang rest))]
            have hmax : max (markedCount c) (maxMarkedLang lang rest) = markedCount c := by
              omega
            rw [hmax, firstIdxLang_cons, hm, beq_self_eq_true, Bool.true_and, cond_true]
            omega
          · rw [if_neg h1,
              if_neg (by omega :
                ¬acc.maxMarkedForLanguage < max (markedCount c) (maxMarkedLang lang rest))]
      · simp only [Bool.not_eq_true] at hm
        simp only [hm, Bool.false_eq_true, false_and, if_false]
        by_cases h2 : acc.maxMarkedForLanguage < maxMarkedLang lang rest
        · rw [if_pos h2, if_pos h2, firstIdxLang_cons, hm, Bool.false_and, cond_false]
          omega
        · rw [if_neg h2, if_neg h2]

/-- The auto-select after marking equals: the lowest index achieving the
maximum marked count among event-language-matching cards when that
maximum is positive, else the lowest index achieving the overall maximum
marked count when positive, else index 0. -/
theorem computeSelectedIndex_eq (cards : List Card) (lang : Option String) :
    computeSelectedIndex cards lang =
      if 0 < maxMarkedLang lang cards then
        firstIdxLang lang cards (maxMarkedLang lang cards)
      else if 0 < maxMarkedAll cards then
        firstIdxAll cards (maxMarkedAll cards)
      else 0 := by
  unfold computeSelectedIndex
  rw [selLoop_spec]
  simp only [Nat.zero_max]
  by_cases hL : 0 < maxMarkedLang lang cards <;>
    by_cases hA : 0 < maxMarkedAll cards <;>
      simp [hL, hA]

/-! ### Lemmas about marking -/

theorem applyMark_none (word : String) (card : Card) :
    applyMark word none card = card := rfl

theorem applyMark_marks {word : String} {ids : List String} {card : Card}
    (h1 : card.id ∈ ids) (h2 : word ∈ card.words) (h3 : word ∉ card.markedWords) :
    applyMark word (some ids) card =
      { card with markedWords := card.markedWords ++ [word] } := by
  simp [applyMark, h1, h2, h3]

theorem applyMark_noop_of_id_absent {word : String} {ids : List String} {card : Card}
    (h : card.id ∉ ids) : applyMark word (some ids) card = card := by
  simp [applyMark, h]

theorem applyMark_noop_of_word_absent {word : String} {card : Card}
    (h : word ∉ card.words) (ids : Option (List String)) :
    applyMark word ids card = card := by
  cases ids <;> simp [applyMark, h]

theorem applyMark_noop_of_marked {word : String} {card : Card}
    (h : word ∈ card.markedWords) (ids : Option (List String)) :
    applyMark word ids card = card := by
  cases ids <;> simp [applyMark, h]

theorem applyMark_idem (word : String) (ids : Option (List String)) (card : Card) :
    applyMark word ids (applyMark word ids card) = applyMark word ids card := by
  match ids with
  | none => rfl
  | some l =>
    by_cases h1 : card.id ∈ l
    · by_cases h2 : word ∈ card.words
      · by_cases h3 : word ∈ card.markedWords
        · rw [applyMark_noop_of_marked h3, applyMark_noop_of_marked h3]
        · rw [applyMark_marks h1 h2 h3]
          exact applyMark_noop_of_marked (by simp) _
      · rw [applyMark_noop_of_word_absent h2, applyMark_noop_of_word_absent h2]
    · rw [applyMark_noop_of_id_absent h1, applyMark_noop_of_id_absent h1]

theorem applyMark_cardInv {word : String} {ids : Option (List String)} {card : Card}
    (h : cardInv card) : cardInv (applyMark word ids card) := by
  match ids with
  | none => exact h
  | some l =>
    by_cases h1 : card.id ∈ l
    · by_cases h2 : word ∈ card.words
      · by_cases h3 : word ∈ card.markedWords
        · rw [applyMark_noop_of_marked h3]
          exact h
        · rw [applyMark_marks h1 h2 h3]
          intro w hw
          rcases List.mem_append.mp hw with hw | hw
          · exact h w hw
          · simp only [List.mem_singleton] at hw
            subst hw
            exact h2
      · rw [applyMark_noop_of_word_absent h2]
        exact h
    · rw [applyMark_noop_of_id_absent h1]
      exact h

theorem applyMark_nodup {word : String} {ids : Option (List String)} {card : Card}
    (h : card.markedWords.Nodup) : (applyMark word ids card).markedWords.Nodup := by
  match ids with
  | none => exact h
  | some l =>
    by_cases h1 : card.id ∈ l
    · by_cases h2 : word ∈ card.words
      · by_cases h3 : word ∈ card.markedWords
        · rw [applyMark_noop_of_marked h3]
          exact h
        · rw [applyMark_marks h1 h2 h3]
          simp [List.nodup_append, h, h3]
      · rw [applyMark_noop_of_word_absent h2]
        exact h
    · rw [applyMark_noop_of_id_absent h1]
      exact h

theorem getD_map_of_lt (f : Card → Card) (l : List Card) (i : Nat) (d d' : Card)
    (h : i < l.length) : (l.map f).getD i d' = f (l.getD i d) := by
  induction l generalizing i with
  | nil => simp at h
  | cons c cs ih =>
    cases i with
    | zero => simp
    | succ n =>
      simp only [List.map_cons, List.getD_cons_succ]
      exact ih n (by simpa using h)

/-! ### Preservation of the store invariant -/

theorem storeInv_markAt {cards : List Card} (h : storeInv cards) (i : Nat) :
    storeInv (markAt cards i) := by
  induction cards generalizing i with
  | nil => simpa [markAt] using h
  | cons c cs ih =>
    cases i with
    | zero =>
      intro x hx
      rcases List.mem_cons.mp hx with hx | hx
      · subst hx
        exact h c (by simp)
      · exact h x (by simp [hx])
    | succ n =>
      intro x hx
      rcases List.mem_cons.mp hx with hx | hx
      · subst hx
        exact h x (by simp)
      · exact ih (fun y hy => h y (by simp [hy])) n x hx

theorem storeInv_transmitNextCard (channelOpen : Bool) :
    ∀ (fuel : Nat) (cards : List Card) (msgs : List Json), storeInv cards →
      storeInv (transmitNextCard channelOpen fuel cards msgs).cards := by
  intro fuel
  induction fuel with
  | zero =>
    intro cards msgs h
    unfold transmitNextCard
    cases hf : findUntransmittedIdx cards with
    | none => exact h
    | some i =>
      dsimp only
      by_cases hb : ((markAt cards i).any fun c => !c.transmitted) = true <;>
        simp [hb, storeInv_markAt h]
  | succ n ih =>
    intro cards msgs h
    unfold transmitNextCard
    cases hf : findUntransmittedIdx cards with
    | none => exact h
    | some i =>
      dsimp only
      by_cases hb : ((markAt cards i).any fun c => !c.transmitted) = true
      · simp only [hb, if_true]
        exact ih _ _ (storeInv_markAt h i)
      · simp [hb, storeInv_markAt h]

/-! ### The specification claims -/

/-- C1 counterexample: take one untransmitted card and a closed channel.
The sequencer sends nothing, yet the card does NOT remain
`transmitted=false`: it is marked `transmitted=true` anyway, refuting
the claim that the flag becomes true only when the channel was open and
the message was actually sent. -/
theorem c1_counterexample :
    (transmitAll false [wsTestCard]).sent = [] ∧
    ((transmitAll false [wsTestCard]).cards.getD 0 default).transmitted = true :=
  ⟨rfl, rfl⟩

/-- C1 (amended): if the outbound channel is not open when the
Transmission Sequencer processes a card, the send step is skipped
(nothing is put on the channel), but the card is nonetheless marked
`transmitted=true` and is therefore never retried: the flag is set
whenever the sequencer processes the card, regardless of whether the
message was sent. -/
theorem c1_channel_closed_still_marks (cards : List Card) :
    (transmitAll false cards).sent = [] ∧
    (transmitAll false cards).cards = markAllTransmitted cards := by
  rw [transmitAll_eq]
  exact ⟨rfl, rfl⟩

/-- C2 counterexample: after `round_start{language:"dutch"}`, a
`word_selected` event with no `language` field marks both cards once.
Both cards have equal non-zero `markedCount` and exactly the second
matches the round's current language `"dutch"`, yet the heuristic
selects index 0 (the English card), not index 1: the code compares card
languages against the event's own `language` payload field, never
against the `currentLanguage` set by `round_start`. -/
theorem c2_counterexample :
    selTestAfter.currentLanguage = "dutch" ∧
    selTestAfter.bingoCards.map markedCount = [1, 1] ∧
    selTestAfter.bingoCards.map Card.language = ["english", "dutch"] ∧
    selTestAfter.selectedCardIndex = 0 ∧
    selTestAfter.selectedCardIndex ≠ 1 := by
  decide

/-- C2 (amended): the Selection Heuristic, run once per `word_selected`
event over the post-mark snapshot, selects the lowest index of maximum
`markedCount` among cards whose language equals the `language` field
carried by the `word_selected` event itself (matching no card when the
field is absent) whenever that maximum is positive, and otherwise the
lowest index achieving the maximum `markedCount` over all cards
(index 0 when all counts are zero); in particular, given two cards with
equal non-zero `markedCount` where exactly one matches the event's
language, the matching card is selected. -/
theorem c2_selection_heuristic :
    (∀ (s : AppState) (word : String) (ids : Option (List String)) (lang : Option String),
      (handleWebSocketMessage s (.word_selected word ids lang)).selectedCardIndex =
        (if 0 < maxMarkedLang lang (s.bingoCards.map (applyMark word ids)) then
          firstIdxLang lang (s.bingoCards.map (applyMark word ids))
            (maxMarkedLang lang (s.bingoCards.map (applyMark word ids)))
        else if 0 < maxMarkedAll (s.bingoCards.map (applyMark word ids)) then
          firstIdxAll (s.bingoCards.map (applyMark word ids))
            (maxMarkedAll (s.bingoCards.map (applyMark word ids)))
        else 0)) ∧
    computeSelectedIndex [tieEnglishCard, tieDutchCard] (some "dutch") = 1 := by
  constructor
  · intro s word ids lang
    exact computeSelectedIndex_eq (s.bingoCards.map (applyMark word ids)) lang
  · decide

/-- C3: cards are transmitted in exactly the order they were appended:
a full drain with the channel open sends precisely the untransmitted
cards' frames in store order (so cards appended as `[A, B, C]` go out as
`A, B, C`, each at most once), and the trigger effect does not start a
new loop while `isTransmitting` is set. -/
theorem c3_fifo_transmission (cards : List Card) :
    (transmitAll true cards).sent = (pendingCards cards).map bingoCardMessage ∧
    ((∀ c ∈ cards, c.transmitted = false) →
      (transmitAll true cards).sent = cards.map bingoCardMessage) ∧
    (∀ channelOpen : Bool, useEffectTransmit channelOpen cards true = ⟨cards, [], true⟩) := by
  refine ⟨?_, ?_, ?_⟩
  · rw [transmitAll_eq]
    rfl
  · intro h
    rw [transmitAll_eq]
    have hp : pendingCards cards = cards :=
      List.filter_eq_self.mpr (fun c hc => by simp [h c hc])
    simp [hp]
  · intro channelOpen
    unfold useEffectTransmit
    by_cases h0 : cards.length = 0
    · simp [h0]
    · simp [h0]

/-- C3 witness: three freshly appended cards drain as exactly their
three frames in append order. -/
theorem c3_fifo_transmission_witness :
    (transmitAll true [fifoCardA, fifoCardB, fifoCardC]).sent =
      [fifoCardA, fifoCardB, fifoCardC].map bingoCardMessage :=
  (c3_fifo_transmission [fifoCardA, fifoCardB, fifoCardC]).2.1 (by decide)

/-- C4: handling `word_selected{word, card_ids}` sets `currentWord` to
the called word, keeps the store's length, and adds the word to a card's
`markedWords` exactly when the card's id is in `card_ids`, the word is
in the card's words, and the word is not already marked; a card whose id
is absent from `card_ids` or whose word list lacks the word is left
entirely unmutated. -/
theorem c4_word_selected_marking (s : AppState) (word : String) (ids : List String)
    (lang : Option String) (i : Nat) (hi : i < s.bingoCards.length) :
    (handleWebSocketMessage s (.word_selected word (some ids) lang)).currentWord = word ∧
    (handleWebSocketMessage s (.word_selected word (some ids) lang)).bingoCards.length =
      s.bingoCards.length ∧
    ((s.bingoCards.getD i default).id ∈ ids →
      word ∈ (s.bingoCards.getD i default).words →
      word ∉ (s.bingoCards.getD i default).markedWords →
      (handleWebSocketMessage s (.word_selected word (some ids) lang)).bingoCards.getD i default =
        { s.bingoCards.getD i default with
            markedWords := (s.bingoCards.getD i default).markedWords ++ [word] }) ∧
    ((s.bingoCards.getD i default).id ∉ ids ∨ word ∉ (s.bingoCards.getD i default).words →
      (handleWebSocketMessage s (.word_selected word (some ids) lang)).bingoCards.getD i default =
        s.bingoCards.getD i default) ∧
    (word ∈ (s.bingoCards.getD i default).markedWords →
      (handleWebSocketMessage s (.word_selected word (some ids) lang)).bingoCards.getD i default =
        s.bingoCards.getD i default) := by
  have hmap : (handleWebSocketMessage s (.word_selected word (some ids) lang)).bingoCards =
      s.bingoCards.map (applyMark word (some ids)) := rfl
  refine ⟨rfl, by simp [hmap], ?_, ?_, ?_⟩
  · intro h1 h2 h3
    rw [hmap, getD_map_of_lt _ _ _ default default hi]
    exact applyMark_marks h1 h2 h3
  · intro h
    rw [hmap, getD_map_of_lt _ _ _ default default hi]
    rcases h with h | h
    · exact applyMark_noop_of_id_absent h
    · exact applyMark_noop_of_word_absent h _
  · intro h
    rw [hmap, getD_map_of_lt _ _ _ default default hi]
    exact applyMark_noop_of_marked h _

/-- C4 witness: marking `"SOL"` on the one-card test store adds exactly
that word to the card's `markedWords`. -/
theorem c4_word_selected_marking_witness :
    (handleWebSocketMessage wsTestState
        (.word_selected "SOL" (some ["c1"]) none)).bingoCards.getD 0 default =
      { wsTestCard with markedWords := ["SOL"] } := by
  have h := (c4_word_selected_marking wsTestState "SOL" ["c1"] none 0 (by decide)).2.2.1
    (by decide) (by decide) (by decide)
  exact h.trans (by decide)

/-- C5: marking is idempotent — applying the same `word_selected` event
twice leaves the card store exactly as after one application, and a
single application never introduces duplicate entries in any card's
`markedWords`. -/
theorem c5_marking_idempotent :
    (∀ (s : AppState) (word : String) (ids : Option (List String)) (lang : Option String),
      (handleWebSocketMessage (handleWebSocketMessage s (.word_selected word ids lang))
          (.word_selected word ids lang)).bingoCards =
        (handleWebSocketMessage s (.word_selected word ids lang)).bingoCards) ∧
    (∀ (word : String) (ids : Option (List String)) (card : Card),
      card.markedWords.Nodup → (applyMark word ids card).markedWords.Nodup) := by
  constructor
  · intro s word ids lang
    show (s.bingoCards.map (applyMark word ids)).map (applyMark word ids) =
      s.bingoCards.map (applyMark word ids)
    rw [List.map_map]
    exact List.map_congr_left (fun c _ => applyMark_idem word ids c)
  · intro word ids card h
    exact applyMark_nodup h

/-- C5 witness: marking a fresh word on the test card keeps its
`markedWords` duplicate-free. -/
theorem c5_marking_idempotent_witness :
    (applyMark "SOL" (some ["c1"]) wsTestCard).markedWords.Nodup :=
  c5_marking_idempotent.2 "SOL" (some ["c1"]) wsTestCard (by decide)

/-- C6: `markedWords ⊆ words` holds at all times — cards created by file
parse or manual entry start with empty `markedWords`, and every
operation (event reconciliation including `word_selected` marking, the
transmission loop's flag setting, and appending new cards) preserves the
inclusion for every card in the store. -/
theorem c6_marked_subset_invariant :
    (∀ content : String, ∀ c ∈ parseTxtFile content, c.markedWords = []) ∧
    (∀ cardId input : String, ∀ cards : List Card,
      ∀ c ∈ handleManualSubmit cardId input cards, c ∈ cards ∨ c.markedWords = []) ∧
    (∀ (s : AppState) (e : ServerEvent),
      storeInv s.bingoCards → storeInv (handleWebSocketMessage s e).bingoCards) ∧
    (∀ (channelOpen : Bool) (fuel : Nat) (cards : List Card) (msgs : List Json),
      storeInv cards → storeInv (transmitNextCard channelOpen fuel cards msgs).cards) ∧
    (∀ cards newCards : List Card,
      storeInv cards → storeInv newCards → storeInv (cards ++ newCards)) := by
  refine ⟨?_, ?_, ?_, ?_, ?_⟩
  · intro content c hc
    simp only [parseTxtFile, List.mem_filterMap] at hc
    obtain ⟨line, _, hline⟩ := hc
    by_cases h1 : (jsTokens line).length < 2
    · rw [if_pos h1] at hline
      exact Option.noConfusion hline
    · rw [if_neg h1] at hline
      by_cases h2 : ((jsTokens line).drop 1).length = 0
      · rw [if_pos h2] at hline
        exact Option.noConfusion hline
      · rw [if_neg h2] at hline
        have hrec := Option.some.inj hline
        exact hrec ▸ rfl
  · intro cardId input cards c hc
    simp only [handleManualSubmit] at hc
    by_cases hb : jsTrim cardId = "" ∨ jsTrim input = ""
    · rw [if_pos hb] at hc
      exact .inl hc
    · rw [if_neg hb] at hc
      by_cases h0 : (((jsLines input).map jsTrim).filter (· ≠ "")).length = 0
      · rw [if_pos h0] at hc
        exact .inl hc
      · rw [if_neg h0] at hc
        rcases List.mem_append.mp hc with hc | hc
        · exact .inl hc
        · right
          simp only [List.mem_singleton] at hc
          rw [hc]
  · intro s e h
    cases e with
    | player_count count => exact h
    | game_started => exact h
    | round_start language => exact h
    | word_selected word ids lang =>
      intro c hc
      simp only [handleWebSocketMessage] at hc
      rcases List.mem_map.mp hc with ⟨c0, hc0, rfl⟩
      exact applyMark_cardInv (h c0 hc0)
    | round_end ws language =>
      cases ws with
      | none => exact h
      | some winners =>
        by_cases hw : 0 < winners.length
        · simpa [handleWebSocketMessage, hw] using h
        · simpa [handleWebSocketMessage, hw] using h
    | game_end ws => exact h
    | unknown => exact h
  · exact storeInv_transmitNextCard
  · intro cards newCards h1 h2 c hc
    rcases List.mem_append.mp hc with hc | hc
    · exact h1 c hc
    · exact h2 c hc

/-- C6 witness: the invariant holds after marking on the concrete
one-card store and after a transmission cycle over it. -/
theorem c6_marked_subset_invariant_witness :
    storeInv (handleWebSocketMessage wsTestState
      (.word_selected "SOL" (some ["c1"]) none)).bingoCards ∧
    storeInv (transmitNextCard true 1 [wsTestCard] []).cards :=
  ⟨c6_marked_subset_invariant.2.2.1 wsTestState _
      (by simp only [storeInv, cardInv]; decide),
   c6_marked_subset_invariant.2.2.2.1 true 1 [wsTestCard] []
      (by simp only [storeInv, cardInv]; decide)⟩

/-- C7 counterexample: the frame built by `sendBingoCard` for a concrete
card has no top-level `id` field — the card fields are nested under a
`card` key — so it differs from the claimed top-level serialization
`{type, id, words, language}`. -/
theorem c7_counterexample :
    (bingoCardMessage wsTestCard).lookupField "id" = none ∧
    (bingoCardMessageClaimed wsTestCard).lookupField "id" = some (.str "c1") ∧
    bingoCardMessage wsTestCard ≠ bingoCardMessageClaimed wsTestCard := by
  refine ⟨rfl, rfl, fun h => ?_⟩
  have h2 : (none : Option Json) = some (Json.str "c1") := by
    calc (none : Option Json)
        = (bingoCardMessage wsTestCard).lookupField "id" := rfl
      _ = (bingoCardMessageClaimed wsTestCard).lookupField "id" := by rw [h]
      _ = some (Json.str "c1") := rfl
  exact Option.noConfusion h2

/-- C7 (amended): each card submission frame is the JSON serialization
of `{type: "bingo_card", card: {id, words, language}}` — the card's id,
words and language appear nested under a top-level `card` field, not as
top-level fields alongside the `type` discriminator. -/
theorem c7_message_shape (card : Card) :
    (bingoCardMessage card).lookupField "type" = some (.str "bingo_card") ∧
    (bingoCardMessage card).lookupField "card" =
      some (.obj [("id", .str card.id),
                  ("words", .arr (card.words.map .str)),
                  ("language", .str card.language)]) ∧
    (bingoCardMessage card).lookupField "id" = none ∧
    (bingoCardMessage card).lookupField "words" = none ∧
    (bingoCardMessage card).lookupField "language" = none :=
  ⟨rfl, rfl, rfl, rfl, rfl⟩

/-- C8: handling `round_end` clears `currentWord` and `currentLanguage`,
and publishes the round-winners notification (winners plus the event's
language, modal raised) exactly when the event carries a non-empty
winners list, leaving the notification state untouched otherwise; the
specification's dutch round-lifecycle scenario ends in the required
state. -/
theorem c8_round_end (s : AppState) (ws : Option (List String)) (language : String) :
    (handleWebSocketMessage s (.round_end ws language)).currentWord = "" ∧
    (handleWebSocketMessage s (.round_end ws language)).currentLanguage = "" ∧
    (if nonEmptyWinners ws then
      (handleWebSocketMessage s (.round_end ws language)).roundWinners = ws ∧
      (handleWebSocketMessage s (.round_end ws language)).roundLanguage = language ∧
      (handleWebSocketMessage s (.round_end ws language)).showRoundWinnersModal = true
    else
      (handleWebSocketMessage s (.round_end ws language)).roundWinners = s.roundWinners ∧
      (handleWebSocketMessage s (.round_end ws language)).roundLanguage = s.roundLanguage ∧
      (handleWebSocketMessage s (.round_end ws language)).showRoundWinnersModal =
        s.showRoundWinnersModal) ∧
    (roundTestFinal.currentWord = "" ∧ roundTestFinal.currentLanguage = "" ∧
     roundTestFinal.roundWinners = some ["Ana"] ∧ roundTestFinal.roundLanguage = "dutch" ∧
     roundTestFinal.showRoundWinnersModal = true) := by
  refine ⟨?_, ?_, ?_, by decide⟩
  · cases ws with
    | none => rfl
    | some winners =>
      by_cases hw : 0 < winners.length <;> simp [handleWebSocketMessage, hw]
  · cases ws with
    | none => rfl
    | some winners =>
      by_cases hw : 0 < winners.length <;> simp [handleWebSocketMessage, hw]
  · cases ws with
    | none => exact ⟨rfl, rfl, rfl⟩
    | some winners =>
      by_cases hw : 0 < winners.length <;>
        simp [handleWebSocketMessage, nonEmptyWinners, hw]

/-- C9: handling `round_start{language}` sets `currentLanguage` to the
event's language and changes nothing else — `currentWord`, the card
store, `playerCount`, `gameStarted` and the selected card index are all
untouched. -/
theorem c9_round_start_frame (s : AppState) (language : String) :
    (handleWebSocketMessage s (.round_start language)).currentLanguage = language ∧
    (handleWebSocketMessage s (.round_start language)).currentWord = s.currentWord ∧
    (handleWebSocketMessage s (.round_start language)).bingoCards = s.bingoCards ∧
    (handleWebSocketMessage s (.round_start language)).playerCount = s.playerCount ∧
    (handleWebSocketMessage s (.round_start language)).gameStarted = s.gameStarted ∧
    (handleWebSocketMessage s (.round_start language)).selectedCardIndex =
      s.selectedCardIndex ∧
    handleWebSocketMessage s (.round_start language) = { s with currentLanguage := language } :=
  ⟨rfl, rfl, rfl, rfl, rfl, rfl, rfl⟩

/-- C10: a `word_selected` event whose payload lacks the `card_ids`
field still sets `currentWord` to the event's word but mutates no card:
the store is exactly as before. -/
theorem c10_word_selected_without_card_ids (s : AppState) (word : String)
    (lang : Option String) :
    (handleWebSocketMessage s (.word_selected word none lang)).currentWord = word ∧
    (handleWebSocketMessage s (.word_selected word none lang)).bingoCards = s.bingoCards := by
  refine ⟨rfl, ?_⟩
  show s.bingoCards.map (applyMark word none) = s.bingoCards
  rw [show applyMark word none = id from funext fun c => rfl, List.map_id]

end Bingo
